import Mathlib

/-!
Verification of the bone-sliding fix script (fix_bone_sliding.py).

The script is a two-phase algorithm over Blender's animation system:

* Phase 1 (sampler): for each integer frame in the closed range
  [frame_start, frame_end] it sets the scene clock, forces dependency-graph
  evaluation, and snapshots three 4x4 world matrices: the armature's world
  matrix (the subject bone's parent space), the bone's world matrix
  (armature world composed with the bone's armature-space pose), and the
  anchor Empty's world matrix.
* Phase 2 (corrector): per frame it computes
  desired = empty_w_start * inverse(empty_w_t) * bone_w_t,
  applies a per-axis translation mask against the sampled bone world
  translation, converts to armature-local space with the sampled armature
  matrix, writes the result into the pose bone, and inserts a location
  keyframe plus one rotation keyframe chosen by the bone's rotation mode.

This file is a shallow embedding of that script. Blender's 4x4 object and
pose matrices always have the affine bottom row (0,0,0,1); we represent such
a matrix by its 3x3 linear block together with its translation column, with
exact rational entries. mathutils `Matrix.inverted()` raises ValueError on a
singular matrix; we model it as an Option-valued inverse whose guard is the
vanishing of the 4x4 determinant, which for an affine matrix is the
determinant of the 3x3 block.
-/

namespace FixBoneSliding

/-!
Scalar arithmetic. The standard rational operations of the library are
deliberately opaque to reduction, so witnesses evaluated on concrete inputs
would get stuck on them. We therefore compute with equivalent operations
built on the reducible smart constructor mkRat, and carry one equation per
operation relating it to the standard one; algebraic proofs first rewrite
with these equations and then work over the field ℚ as usual.
-/

/-- Reducible rational addition, equal to `a + b`. -/
def qadd (a b : ℚ) : ℚ := mkRat (a.num * b.den + b.num * a.den) (a.den * b.den)

/-- Reducible rational subtraction, equal to `a - b`. -/
def qsub (a b : ℚ) : ℚ := mkRat (a.num * b.den - b.num * a.den) (a.den * b.den)

/-- Reducible rational multiplication, equal to `a * b`. -/
def qmul (a b : ℚ) : ℚ := mkRat (a.num * b.num) (a.den * b.den)

/-- Reducible rational inverse, equal to `a⁻¹` (and 0 at 0). -/
def qinv (a : ℚ) : ℚ := Rat.divInt a.den a.num

/-- Vec3 models a mathutils 3-vector with exact rational coordinates: the
translation column of a matrix, and the per-frame correction delta. -/
@[ext] structure Vec3 where
  x : ℚ
  y : ℚ
  z : ℚ
  deriving DecidableEq

/-- Componentwise vector addition. -/
def Vec3.add (a b : Vec3) : Vec3 := ⟨qadd a.x b.x, qadd a.y b.y, qadd a.z b.z⟩

/-- Componentwise vector subtraction, as in `desired.translation - bone_w.translation`. -/
def Vec3.sub (a b : Vec3) : Vec3 := ⟨qsub a.x b.x, qsub a.y b.y, qsub a.z b.z⟩

/-- Componentwise vector negation. -/
def Vec3.neg (a : Vec3) : Vec3 := ⟨-a.x, -a.y, -a.z⟩

/-- The zero vector. -/
def Vec3.zero : Vec3 := ⟨0, 0, 0⟩

/-- Mat3 is the 3x3 linear (rotation/scale) block of a 4x4 affine matrix,
with explicit rational entries, row-major: mIJ is row I, column J. -/
@[ext] structure Mat3 where
  m00 : ℚ
  m01 : ℚ
  m02 : ℚ
  m10 : ℚ
  m11 : ℚ
  m12 : ℚ
  m20 : ℚ
  m21 : ℚ
  m22 : ℚ
  deriving DecidableEq

/-- Matrix product of two 3x3 blocks. -/
def Mat3.mul (a b : Mat3) : Mat3 :=
  ⟨qadd (qadd (qmul a.m00 b.m00) (qmul a.m01 b.m10)) (qmul a.m02 b.m20),
   qadd (qadd (qmul a.m00 b.m01) (qmul a.m01 b.m11)) (qmul a.m02 b.m21),
   qadd (qadd (qmul a.m00 b.m02) (qmul a.m01 b.m12)) (qmul a.m02 b.m22),
   qadd (qadd (qmul a.m10 b.m00) (qmul a.m11 b.m10)) (qmul a.m12 b.m20),
   qadd (qadd (qmul a.m10 b.m01) (qmul a.m11 b.m11)) (qmul a.m12 b.m21),
   qadd (qadd (qmul a.m10 b.m02) (qmul a.m11 b.m12)) (qmul a.m12 b.m22),
   qadd (qadd (qmul a.m20 b.m00) (qmul a.m21 b.m10)) (qmul a.m22 b.m20),
   qadd (qadd (qmul a.m20 b.m01) (qmul a.m21 b.m11)) (qmul a.m22 b.m21),
   qadd (qadd (qmul a.m20 b.m02) (qmul a.m21 b.m12)) (qmul a.m22 b.m22)⟩

/-- The identity 3x3 block. -/
def Mat3.one : Mat3 := ⟨1, 0, 0, 0, 1, 0, 0, 0, 1⟩

/-- Matrix-vector product. -/
def Mat3.mulVec (a : Mat3) (v : Vec3) : Vec3 :=
  ⟨qadd (qadd (qmul a.m00 v.x) (qmul a.m01 v.y)) (qmul a.m02 v.z),
   qadd (qadd (qmul a.m10 v.x) (qmul a.m11 v.y)) (qmul a.m12 v.z),
   qadd (qadd (qmul a.m20 v.x) (qmul a.m21 v.y)) (qmul a.m22 v.z)⟩

/-- Determinant of the 3x3 block; this equals the determinant of the full 4x4
affine matrix, which is what decides whether mathutils can invert it. -/
def Mat3.det (a : Mat3) : ℚ :=
  qadd
    (qsub (qmul a.m00 (qsub (qmul a.m11 a.m22) (qmul a.m12 a.m21)))
      (qmul a.m01 (qsub (qmul a.m10 a.m22) (qmul a.m12 a.m20))))
    (qmul a.m02 (qsub (qmul a.m10 a.m21) (qmul a.m11 a.m20)))

/-- Adjugate (transposed cofactor matrix) of the 3x3 block. -/
def Mat3.adj (a : Mat3) : Mat3 :=
  ⟨qsub (qmul a.m11 a.m22) (qmul a.m12 a.m21),
   -(qsub (qmul a.m01 a.m22) (qmul a.m02 a.m21)),
   qsub (qmul a.m01 a.m12) (qmul a.m02 a.m11),
   -(qsub (qmul a.m10 a.m22) (qmul a.m12 a.m20)),
   qsub (qmul a.m00 a.m22) (qmul a.m02 a.m20),
   -(qsub (qmul a.m00 a.m12) (qmul a.m02 a.m10)),
   qsub (qmul a.m10 a.m21) (qmul a.m11 a.m20),
   -(qsub (qmul a.m00 a.m21) (qmul a.m01 a.m20)),
   qsub (qmul a.m00 a.m11) (qmul a.m01 a.m10)⟩

/-- Scalar multiple of a 3x3 block. -/
def Mat3.smul (c : ℚ) (a : Mat3) : Mat3 :=
  ⟨qmul c a.m00, qmul c a.m01, qmul c a.m02,
   qmul c a.m10, qmul c a.m11, qmul c a.m12,
   qmul c a.m20, qmul c a.m21, qmul c a.m22⟩

/-- Inverse of the 3x3 block by Cramer's rule; meaningful when det is nonzero. -/
def Mat3.inv (a : Mat3) : Mat3 := Mat3.smul (qinv a.det) a.adj

/-- Aff models one mathutils 4x4 matrix with affine bottom row (0,0,0,1):
a 3x3 linear block `lin` and a translation column `tr`. Every matrix the
script reads (object and pose-bone matrices) has this shape. -/
@[ext] structure Aff where
  lin : Mat3
  tr : Vec3
  deriving DecidableEq

/-- Product of two affine 4x4 matrices (the `@` operator of mathutils). -/
def Aff.mul (a b : Aff) : Aff :=
  ⟨a.lin.mul b.lin, (a.lin.mulVec b.tr).add a.tr⟩

/-- The identity matrix. -/
def Aff.one : Aff := ⟨Mat3.one, Vec3.zero⟩

/-- Model of mathutils `Matrix.inverted()`: returns none exactly when the
matrix is singular (in the script that raises an uncaught ValueError),
otherwise the affine inverse. -/
def inverted (a : Aff) : Option Aff :=
  if a.lin.det = 0 then none
  else some ⟨a.lin.inv, (a.lin.inv.mulVec a.tr).neg⟩

/-- A pure translation matrix: identity linear block, translation (px, py, pz). -/
def trAff (px py pz : ℚ) : Aff := ⟨Mat3.one, ⟨px, py, pz⟩⟩

/-- RotMode models `pose_bone.rotation_mode`: the script branches on
'QUATERNION', 'AXIS_ANGLE', and a catch-all else branch for the six Euler
orders, which all map to the same keyframe channel. -/
inductive RotMode where
  | quaternion
  | axisAngle
  | euler
  deriving DecidableEq

/-- Channel names the keyframe data paths the host exposes on a pose bone.
The script only ever inserts location and one rotation channel; scale is
included so that its absence is expressible. -/
inductive Channel where
  | location
  | rotation_quaternion
  | rotation_axis_angle
  | rotation_euler
  | scale
  deriving DecidableEq

/-- The rotation keyframe channel the script selects for a rotation mode
(the if/elif/else dispatch after the location keyframe insert). -/
def rotChannel : RotMode → Channel
  | RotMode.quaternion => Channel.rotation_quaternion
  | RotMode.axisAngle => Channel.rotation_axis_angle
  | RotMode.euler => Channel.rotation_euler

/-- Event is one observable interaction of the script with the host scene:
a clock write (`scene.frame_set`), the phase-1 snapshot of the three world
matrices at a frame, the phase-2 assignment to `pose_bone.matrix`, or one
`keyframe_insert` call. -/
inductive Event where
  | frameSet (f : ℤ)
  | sample (f : ℤ)
  | write (f : ℤ) (m : Aff)
  | keyframe (ch : Channel) (f : ℤ)
  deriving DecidableEq

/-- Outcome distinguishes the three exit paths of `main()`: a handled
configuration error (printed message, plain `return`), an uncaught Python
exception escaping to the host (the ValueError raised by
`Matrix.inverted()` on a singular matrix — the script has no try/except),
and normal completion. -/
inductive Outcome where
  | configError
  | exn
  | ok
  deriving DecidableEq

/-- Env is the host scene as the script observes it. The three matrix
families give, for each frame, the evaluated world matrices after
`scene.frame_set(f)` plus `view_layer.update()`: the armature object's
world matrix, the active pose bone's armature-space matrix, and the anchor
Empty's world matrix. `frame0` is `scene.frame_current` at invocation time,
which the script uses both as the start frame and as the saved frame to
restore. The three booleans model the validation checks (Empty resolvable
by name, active object is an armature, an active pose bone exists), and
fixX/fixY/fixZ are the FIX_X/FIX_Y/FIX_Z configuration constants. -/
structure Env where
  emptyExists : Bool
  activeIsArmature : Bool
  activeBoneExists : Bool
  rotMode : RotMode
  armW : ℤ → Aff
  boneMat : ℤ → Aff
  emptyW : ℤ → Aff
  frame0 : ℤ
  frameEnd : ℤ
  fixX : Bool
  fixY : Bool
  fixZ : Bool

/-- SampleRec is one phase-1 sample: the dict
`{"arm_w": .., "bone_w": .., "empty_w": ..}` stored per frame. -/
structure SampleRec where
  armW : Aff
  boneW : Aff
  emptyW : Aff
  deriving DecidableEq

/-- The sample the phase-1 loop stores for frame f: `arm_w` is the evaluated
armature world matrix, `bone_w = arm_w @ pose_bone.matrix`, and `empty_w`
the Empty's evaluated world matrix; all deep-copied, hence plain values. -/
def sampleAt (env : Env) (f : ℤ) : SampleRec :=
  ⟨env.armW f, (env.armW f).mul (env.boneMat f), env.emptyW f⟩

/-- ReferenceAnchorPose: `empty_w_start = samples[frame_start]["empty_w"]`,
the anchor world matrix sampled at the start frame. -/
def refPose (env : Env) : Aff := (sampleAt env env.frame0).emptyW

/-- The pre-mask desired world matrix of phase 2 at frame f, given the
inverse `ie` of the sampled anchor matrix:
`desired_bone_w = empty_w_start @ empty_w.inverted() @ bone_w`. -/
def desiredAt (env : Env) (f : ℤ) (ie : Aff) : Aff :=
  ((refPose env).mul ie).mul (sampleAt env f).boneW

/-- The axis-mask step of phase 2 (lines 140-144 of the script): the delta
from the sampled bone world translation to the desired translation is
zeroed on every axis whose FIX flag is False, and the result is re-added to
the sampled bone world translation. The linear block passes through
untouched. -/
def maskedDesired (d bw : Aff) (fx fy fz : Bool) : Aff :=
  ⟨d.lin,
   bw.tr.add
     ⟨if fx then (d.tr.sub bw.tr).x else 0,
      if fy then (d.tr.sub bw.tr).y else 0,
      if fz then (d.tr.sub bw.tr).z else 0⟩⟩

/-- The post-mask desired world matrix at frame f. -/
def maskedAt (env : Env) (f : ℤ) (ie : Aff) : Aff :=
  maskedDesired (desiredAt env f ie) (sampleAt env f).boneW env.fixX env.fixY env.fixZ

/-- One phase-2 frame body up to the matrix written into `pose_bone.matrix`:
invert the sampled anchor matrix, build the masked desired world matrix,
invert the sampled armature matrix, and convert to armature-local space
(`pose_bone.matrix = arm_w.inverted() @ desired_bone_w`). A none result
models the ValueError raised by either `inverted()` call. -/
def correctFrame (env : Env) (f : ℤ) : Option Aff :=
  match inverted (sampleAt env f).emptyW with
  | none => none
  | some ie =>
    match inverted (sampleAt env f).armW with
    | none => none
    | some ia => some (ia.mul (maskedAt env f ie))

/-- The closed integer frame range [a, b] the two loops iterate over
(`range(frame_start, frame_end + 1)`). -/
def frameRange (a b : ℤ) : List ℤ :=
  (List.range (b + 1 - a).toNat).map (fun (i : ℕ) => a + (i : ℤ))

/-- The phase-2 loop over a list of frames. Returns the emitted event trace,
the association list of committed local poses (frame, matrix written and
keyframed), and, if some frame raised, the first raising frame. The loop
stops at the first raise: later frames are neither visited nor committed. -/
def runPhase2 (env : Env) : List ℤ → List Event × List (ℤ × Aff) × Option ℤ
  | [] => ([], [], none)
  | f :: fs =>
    match correctFrame env f with
    | none => ([Event.frameSet f], [], some f)
    | some m =>
      let r := runPhase2 env fs
      (Event.frameSet f :: Event.write f m :: Event.keyframe Channel.location f ::
          Event.keyframe (rotChannel env.rotMode) f :: r.1,
        (f, m) :: r.2.1, r.2.2)

/-- RunResult is everything externally observable about one invocation of
`main()`: which exit path was taken, the event trace against the host, the
scene clock value when control leaves the script, the committed (frame,
local pose) pairs, and the frame whose inversion raised, if any. -/
structure RunResult where
  outcome : Outcome
  trace : List Event
  finalFrame : ℤ
  committed : List (ℤ × Aff)
  failFrame : Option ℤ

/-- The phase-1 event trace: for each frame in order, a clock write followed
by the snapshot of the three matrices. Phase 1 contains no inversion and no
write, so it always runs to completion. -/
def phase1Trace (fs : List ℤ) : List Event :=
  (fs.map (fun f => [Event.frameSet f, Event.sample f])).flatten

/-- The body of `main()` after the validation block: phase 1 over the frame
range, then phase 2. On an inversion ValueError the script dies with the
clock still at the raising frame; on completion it restores the clock to
`saved_frame = frame_start` (the invocation-time current frame) and shows
the completion popup. -/
def mainRun (env : Env) : RunResult :=
  let fs := frameRange env.frame0 env.frameEnd
  let r := runPhase2 env fs
  match r.2.2 with
  | some f => ⟨Outcome.exn, phase1Trace fs ++ r.1, f, r.2.1, some f⟩
  | none =>
      ⟨Outcome.ok, phase1Trace fs ++ r.1 ++ [Event.frameSet env.frame0],
        env.frame0, r.2.1, none⟩

/-- Shallow embedding of `main()`. The four validation checks (Empty found,
active object is an armature, active pose bone exists, current frame not
past FRAME_END) all print a message and `return`, touching nothing, so they
collapse to one configError exit with an empty trace and the clock left at
its invocation value. -/
def main (env : Env) : RunResult :=
  if env.emptyExists && env.activeIsArmature && env.activeBoneExists
      && decide (env.frame0 ≤ env.frameEnd) then
    mainRun env
  else
    ⟨Outcome.configError, [], env.frame0, [], none⟩

/-- The corrected world matrix a committed local pose m produces at frame f:
the sampled parent (armature) world matrix composed with m. -/
def correctedWorld (env : Env) (f : ℤ) (m : Aff) : Aff :=
  (sampleAt env f).armW.mul m

/-- The second run of the script on the scene the first run left behind:
location/rotation keyframes were inserted at every committed frame, so the
bone's evaluated armature-space matrix at a committed frame is the first
run's committed local pose; everything else is unchanged. -/
def secondRunEnv (env : Env) : Env :=
  { env with boneMat := fun f => ((main env).committed.lookup f).getD (env.boneMat f) }

/-- The keyframe channel a single event contributes at frame f, if any. -/
def keyAt (f : ℤ) : Event → Option Channel
  | Event.keyframe ch g => if g = f then some ch else none
  | _ => none

/-- All keyframe channels committed at frame f over a trace, in order. -/
def keyframesAt (tr : List Event) (f : ℤ) : List Channel :=
  tr.filterMap (keyAt f)

/-- Whether an event is a phase-1 snapshot. -/
def isSample : Event → Bool
  | Event.sample _ => true
  | _ => false

/-- Whether an event mutates the animation state: a pose-matrix write or a
keyframe insert. -/
def isCommit : Event → Bool
  | Event.write _ _ => true
  | Event.keyframe _ _ => true
  | _ => false

/-!
Concrete scenes used to instantiate the general theorems and to exhibit
counterexamples. Each is a fully explicit Env.
-/

/-- A trivial valid scene: everything is the identity, frames 0 to 1. -/
def envIdentity : Env :=
  ⟨true, true, true, RotMode.quaternion, fun _ => Aff.one, fun _ => Aff.one,
   fun _ => Aff.one, 0, 1, true, true, true⟩

/-- A scene whose anchor translates by f along X at frame f, with the X axis
excluded from correction (FIX_X = False) and Y, Z included. -/
def envMaskX : Env :=
  ⟨true, true, true, RotMode.quaternion, fun _ => Aff.one, fun _ => Aff.one,
   fun f => trAff ((f : ℚ)) 0 0, 0, 1, false, true, true⟩

/-- A scene whose anchor translates by f along X at frame f, all axes
corrected: a pure-translation anchor motion. -/
def envTransAnchor : Env :=
  ⟨true, true, true, RotMode.quaternion, fun _ => Aff.one, fun _ => Aff.one,
   fun f => trAff ((f : ℚ)) 0 0, 0, 1, true, true, true⟩

/-- The 90-degree rotation about the world Z axis, as an affine matrix. -/
def rotZ90 : Aff := ⟨⟨0, -1, 0, 1, 0, 0, 0, 0, 1⟩, Vec3.zero⟩

/-- A scene whose anchor is at the identity at the reference frame 0 and
rotated 90 degrees about Z at frame 1; subject and parent are the identity
at all frames. -/
def envRotAnchor : Env :=
  ⟨true, true, true, RotMode.quaternion, fun _ => Aff.one, fun _ => Aff.one,
   fun f => if f = 0 then Aff.one else rotZ90, 0, 1, true, true, true⟩

/-- Scenario B read literally: the anchor translates linearly from (0,0,0)
at frame 1 to (10,0,0) at frame 10 while the subject's sampled world
transform is the constant pure translation (2,0,3); all axes corrected. -/
def envScenarioB : Env :=
  ⟨true, true, true, RotMode.quaternion, fun _ => Aff.one,
   fun _ => trAff 2 0 3,
   fun f => trAff (qmul (qsub ((f : ℚ)) 1) (mkRat 10 9)) 0 0,
   1, 10, true, true, true⟩

/-- Scenario B with the subject carried by the anchor: the anchor moves as
in envScenarioB and the subject's world transform is the anchor's
translation composed with the constant offset (2,0,3), i.e. the subject is
stationary relative to the anchor and slides in world space. -/
def envScenarioBFollow : Env :=
  ⟨true, true, true, RotMode.quaternion, fun _ => Aff.one,
   fun f => trAff (qadd 2 (qmul (qsub ((f : ℚ)) 1) (mkRat 10 9))) 0 3,
   fun f => trAff (qmul (qsub ((f : ℚ)) 1) (mkRat 10 9)) 0 0,
   1, 10, true, true, true⟩

/-- A scene over frames 0 to 2 whose anchor matrix is singular (all-zero
linear block) at every frame except the reference frame 0. The first
inversion in phase 2 raises at frame 1. -/
def envSingular : Env :=
  ⟨true, true, true, RotMode.quaternion, fun _ => Aff.one, fun _ => Aff.one,
   fun f => if f = 0 then Aff.one else ⟨⟨0, 0, 0, 0, 0, 0, 0, 0, 0⟩, Vec3.zero⟩,
   0, 2, true, true, true⟩

/-- A scene whose anchor is uniformly scaled by 2 at frame 1 (identity at
the reference frame 0): the anchor-subtraction product then carries a
non-unit scale into the committed local pose. -/
def envScaleAnchor : Env :=
  ⟨true, true, true, RotMode.quaternion, fun _ => Aff.one, fun _ => Aff.one,
   fun f => if f = 0 then Aff.one else ⟨⟨2, 0, 0, 0, 2, 0, 0, 0, 2⟩, Vec3.zero⟩,
   0, 1, true, true, true⟩

/-!
Lemma layer: algebra of the embedded matrix operations, then structural
facts about the phase-2 loop and the event trace.
-/

/-- qadd agrees with the standard addition. -/
lemma qadd_eq (a b : ℚ) : qadd a b = a + b := (Rat.add_def' a b).symm

/-- qsub agrees with the standard subtraction. -/
lemma qsub_eq (a b : ℚ) : qsub a b = a - b := (Rat.sub_def' a b).symm

/-- qmul agrees with the standard multiplication. -/
lemma qmul_eq (a b : ℚ) : qmul a b = a * b := by
  rw [qmul, Rat.mul_def, Rat.normalize_eq_mkRat]

/-- qinv agrees with the standard inverse. -/
lemma qinv_eq (a : ℚ) : qinv a = a⁻¹ := (Rat.inv_def' a).symm

/-- Matrix product on 3x3 blocks is associative. -/
lemma mat3_mul_assoc (a b c : Mat3) : (a.mul b).mul c = a.mul (b.mul c) := by
  unfold Mat3.mul
  ext <;> simp only [qadd_eq, qmul_eq] <;> ring

/-- The identity block is a left unit. -/
lemma mat3_one_mul (a : Mat3) : Mat3.one.mul a = a := by
  unfold Mat3.mul Mat3.one
  ext <;> simp only [qadd_eq, qmul_eq] <;> ring

/-- The identity block is a right unit. -/
lemma mat3_mul_one (a : Mat3) : a.mul Mat3.one = a := by
  unfold Mat3.mul Mat3.one
  ext <;> simp only [qadd_eq, qmul_eq] <;> ring

/-- Cramer inverse is a right inverse on blocks with nonzero determinant. -/
lemma Mat3.mul_inv_self (a : Mat3) (h : a.det ≠ 0) : a.mul a.inv = Mat3.one := by
  unfold Mat3.mul Mat3.inv Mat3.smul Mat3.adj Mat3.one
  ext <;> simp only [qadd_eq, qmul_eq, qinv_eq, qsub_eq] <;> field_simp <;>
    (try simp only [Mat3.det, qadd_eq, qmul_eq, qsub_eq]) <;> ring

/-- Cramer inverse is a left inverse on blocks with nonzero determinant. -/
lemma Mat3.inv_mul_self (a : Mat3) (h : a.det ≠ 0) : a.inv.mul a = Mat3.one := by
  unfold Mat3.mul Mat3.inv Mat3.smul Mat3.adj Mat3.one
  ext <;> simp only [qadd_eq, qmul_eq, qinv_eq, qsub_eq] <;> field_simp <;>
    (try simp only [Mat3.det, qadd_eq, qmul_eq, qsub_eq]) <;> ring

/-- The affine product is associative. -/
lemma aff_mul_assoc (a b c : Aff) : (a.mul b).mul c = a.mul (b.mul c) := by
  unfold Aff.mul Mat3.mul Mat3.mulVec Vec3.add
  ext <;> simp only [qadd_eq, qmul_eq] <;> ring

/-- The identity matrix is a left unit for the affine product. -/
lemma aff_one_mul (a : Aff) : Aff.one.mul a = a := by
  unfold Aff.mul Aff.one Mat3.mul Mat3.mulVec Mat3.one Vec3.add Vec3.zero
  ext <;> simp only [qadd_eq, qmul_eq] <;> ring

/-- The identity matrix is a right unit for the affine product. -/
lemma aff_mul_one (a : Aff) : a.mul Aff.one = a := by
  unfold Aff.mul Aff.one Mat3.mul Mat3.mulVec Mat3.one Vec3.add Vec3.zero
  ext <;> simp only [qadd_eq, qmul_eq] <;> ring

/-- Characterization of a successful inversion: the linear block has nonzero
determinant and the result is the affine inverse. -/
lemma inverted_some (a b : Aff) (h : inverted a = some b) :
    a.lin.det ≠ 0 ∧ b = ⟨a.lin.inv, (a.lin.inv.mulVec a.tr).neg⟩ := by
  unfold inverted at h
  by_cases hd : a.lin.det = 0
  · rw [if_pos hd] at h
    exact absurd h (by simp)
  · rw [if_neg hd] at h
    exact ⟨hd, (Option.some.inj h).symm⟩

/-- A matrix with an all-zero linear block row is singular; conversely a
successful inversion composes to the identity on the right. -/
lemma Aff.mul_inverted_self (a b : Aff) (h : inverted a = some b) :
    a.mul b = Aff.one := by
  obtain ⟨hd, rfl⟩ := inverted_some a b h
  unfold Aff.mul Aff.one Mat3.mul Mat3.mulVec Mat3.inv Mat3.smul Mat3.adj
    Mat3.one Vec3.add Vec3.neg Vec3.zero
  ext <;> simp only [qadd_eq, qmul_eq, qinv_eq, qsub_eq] <;> field_simp <;>
    (try simp only [Mat3.det, qadd_eq, qmul_eq, qsub_eq]) <;> ring

/-- A successful inversion composes to the identity on the left. -/
lemma Aff.inverted_mul_self (a b : Aff) (h : inverted a = some b) :
    b.mul a = Aff.one := by
  obtain ⟨hd, rfl⟩ := inverted_some a b h
  unfold Aff.mul Aff.one Mat3.mul Mat3.mulVec Mat3.inv Mat3.smul Mat3.adj
    Mat3.one Vec3.add Vec3.neg Vec3.zero
  ext <;> simp only [qadd_eq, qmul_eq, qinv_eq, qsub_eq] <;> field_simp <;>
    (try simp only [Mat3.det, qadd_eq, qmul_eq, qsub_eq]) <;> ring

/-- Left cancellation through an inverse pair: b (a c) = c. -/
lemma Aff.inverted_cancel (a b c : Aff) (h : inverted a = some b) :
    b.mul (a.mul c) = c := by
  rw [← aff_mul_assoc, Aff.inverted_mul_self a b h, aff_one_mul]

/-- Right-side cancellation through an inverse pair: a (b c) = c. -/
lemma Aff.mul_inverted_cancel (a b c : Aff) (h : inverted a = some b) :
    a.mul (b.mul c) = c := by
  rw [← aff_mul_assoc, Aff.mul_inverted_self a b h, aff_one_mul]

/-- Masking a desired matrix against itself changes nothing: the delta is
zero on every axis whether or not the axis is corrected. -/
lemma maskedDesired_self (bw : Aff) (fx fy fz : Bool) :
    maskedDesired bw bw fx fy fz = bw := by
  unfold maskedDesired Vec3.add Vec3.sub
  ext <;> cases fx <;> cases fy <;> cases fz <;>
    simp only [qadd_eq, qsub_eq, if_true, if_false, Bool.false_eq_true] <;> ring

/-- A successful per-frame correction is exactly: both inversions succeed
and the result is the sampled-parent inverse times the masked desired
matrix. -/
lemma correctFrame_some_iff (env : Env) (f : ℤ) (m : Aff) :
    correctFrame env f = some m ↔
      ∃ ie ia, inverted (sampleAt env f).emptyW = some ie ∧
        inverted (sampleAt env f).armW = some ia ∧
        m = ia.mul (maskedAt env f ie) := by
  unfold correctFrame
  rcases he : inverted (sampleAt env f).emptyW with _ | ie <;>
    rcases ha : inverted (sampleAt env f).armW with _ | ia <;> simp
  exact ⟨fun h => h.symm, fun h => h.symm⟩

/-- Unfolding of the phase-2 loop at a frame whose correction raises. -/
lemma runPhase2_cons_none (env : Env) (g : ℤ) (gs : List ℤ)
    (hg : correctFrame env g = none) :
    runPhase2 env (g :: gs) = ([Event.frameSet g], [], some g) := by
  rw [runPhase2, hg]

/-- Unfolding of the phase-2 loop at a frame whose correction succeeds. -/
lemma runPhase2_cons_some (env : Env) (g : ℤ) (gs : List ℤ) (m : Aff)
    (hg : correctFrame env g = some m) :
    runPhase2 env (g :: gs) =
      (Event.frameSet g :: Event.write g m :: Event.keyframe Channel.location g ::
          Event.keyframe (rotChannel env.rotMode) g :: (runPhase2 env gs).1,
        (g, m) :: (runPhase2 env gs).2.1, (runPhase2 env gs).2.2) := by
  rw [runPhase2, hg]

/-- A committed pair of the phase-2 loop comes from a frame of the input
list and satisfies the per-frame correction equation. -/
lemma runPhase2_mem (env : Env) (fs : List ℤ) (f : ℤ) (m : Aff)
    (h : (f, m) ∈ (runPhase2 env fs).2.1) :
    f ∈ fs ∧ correctFrame env f = some m := by
  induction fs with
  | nil => simp [runPhase2] at h
  | cons g gs ih =>
    rcases hg : correctFrame env g with _ | m'
    · rw [runPhase2_cons_none env g gs hg] at h
      simp at h
    · rw [runPhase2_cons_some env g gs m' hg] at h
      simp only [List.mem_cons, Prod.mk.injEq] at h
      rcases h with ⟨rfl, rfl⟩ | h
      · exact ⟨List.mem_cons_self _ _, hg⟩
      · obtain ⟨h1, h2⟩ := ih h
        exact ⟨List.mem_cons_of_mem _ h1, h2⟩

/-- If the phase-2 loop reports a raising frame, the input list splits at
that frame: exactly the frames before it were corrected and committed (in
order), the raising frame itself failed, and neither it nor any later frame
was committed. -/
lemma runPhase2_err (env : Env) (fs : List ℤ) (f : ℤ)
    (h : (runPhase2 env fs).2.2 = some f) :
    ∃ l1 l2, fs = l1 ++ f :: l2 ∧ correctFrame env f = none ∧
      ((runPhase2 env fs).2.1).map Prod.fst = l1 := by
  induction fs with
  | nil => simp [runPhase2] at h
  | cons g gs ih =>
    rcases hg : correctFrame env g with _ | m'
    · rw [runPhase2_cons_none env g gs hg] at h ⊢
      obtain rfl : g = f := Option.some.inj h
      exact ⟨[], gs, rfl, hg, rfl⟩
    · rw [runPhase2_cons_some env g gs m' hg] at h ⊢
      obtain ⟨l1, l2, hsplit, hfail, hmap⟩ := ih h
      exact ⟨g :: l1, l2, by rw [hsplit]; rfl, hfail, by simp [hmap]⟩

/-- If the phase-2 loop completes without raising, every frame of the input
list is committed. -/
lemma runPhase2_complete (env : Env) (fs : List ℤ)
    (h : (runPhase2 env fs).2.2 = none) :
    ∀ f ∈ fs, ∃ m, (f, m) ∈ (runPhase2 env fs).2.1 := by
  induction fs with
  | nil => simp
  | cons g gs ih =>
    rcases hg : correctFrame env g with _ | m'
    · rw [runPhase2_cons_none env g gs hg] at h
      simp at h
    · rw [runPhase2_cons_some env g gs m' hg] at h ⊢
      intro f hf
      rcases List.mem_cons.1 hf with rfl | hf'
      · exact ⟨m', List.mem_cons_self _ _⟩
      · obtain ⟨m, hm⟩ := ih h f hf'
        exact ⟨m, List.mem_cons_of_mem _ hm⟩

/-- The frame range is strictly increasing. -/
lemma frameRange_pairwise (a b : ℤ) :
    (frameRange a b).Pairwise (fun x y => x < y) := by
  unfold frameRange
  refine List.Pairwise.map _ ?_ (List.pairwise_lt_range _)
  intro x y hxy
  omega

/-- The frame range has no duplicate frames. -/
lemma frameRange_nodup (a b : ℤ) : (frameRange a b).Nodup :=
  (frameRange_pairwise a b).imp (fun h => ne_of_lt h)

/-- Membership in the frame range is the closed interval [a, b]. -/
lemma frameRange_mem (a b f : ℤ) : f ∈ frameRange a b ↔ a ≤ f ∧ f ≤ b := by
  unfold frameRange
  simp only [List.mem_map, List.mem_range]
  constructor
  · rintro ⟨i, hi, rfl⟩
    omega
  · rintro ⟨h1, h2⟩
    exact ⟨(f - a).toNat, by omega, by omega⟩

/-- main is either the configuration-error exit or the two-phase run. -/
lemma main_split (env : Env) :
    main env = ⟨Outcome.configError, [], env.frame0, [], none⟩ ∨ main env = mainRun env := by
  unfold main
  split
  · exact Or.inr rfl
  · exact Or.inl rfl

/-- Shape of the two-phase run when phase 2 raises at frame f. -/
lemma mainRun_err (env : Env) (f : ℤ)
    (h : (runPhase2 env (frameRange env.frame0 env.frameEnd)).2.2 = some f) :
    mainRun env = ⟨Outcome.exn,
      phase1Trace (frameRange env.frame0 env.frameEnd)
        ++ (runPhase2 env (frameRange env.frame0 env.frameEnd)).1,
      f, (runPhase2 env (frameRange env.frame0 env.frameEnd)).2.1, some f⟩ := by
  unfold mainRun
  simp only [h]

/-- Shape of the two-phase run when phase 2 completes. -/
lemma mainRun_ok (env : Env)
    (h : (runPhase2 env (frameRange env.frame0 env.frameEnd)).2.2 = none) :
    mainRun env = ⟨Outcome.ok,
      phase1Trace (frameRange env.frame0 env.frameEnd)
        ++ (runPhase2 env (frameRange env.frame0 env.frameEnd)).1
        ++ [Event.frameSet env.frame0],
      env.frame0, (runPhase2 env (frameRange env.frame0 env.frameEnd)).2.1, none⟩ := by
  unfold mainRun
  simp only [h]

/-- The two-phase run commits exactly what the phase-2 loop commits. -/
lemma mainRun_committed (env : Env) :
    (mainRun env).committed
      = (runPhase2 env (frameRange env.frame0 env.frameEnd)).2.1 := by
  rcases h : (runPhase2 env (frameRange env.frame0 env.frameEnd)).2.2 with _ | f
  · rw [mainRun_ok env h]
  · rw [mainRun_err env f h]

/-- The run's reported raising frame is the phase-2 loop's. -/
lemma mainRun_failFrame (env : Env) :
    (mainRun env).failFrame
      = (runPhase2 env (frameRange env.frame0 env.frameEnd)).2.2 := by
  rcases h : (runPhase2 env (frameRange env.frame0 env.frameEnd)).2.2 with _ | f
  · rw [mainRun_ok env h]
  · rw [mainRun_err env f h]

/-- A committed pair of a full run lies in the frame range and satisfies the
per-frame correction equation. -/
lemma main_committed_mem (env : Env) (f : ℤ) (m : Aff)
    (h : (f, m) ∈ (main env).committed) :
    f ∈ frameRange env.frame0 env.frameEnd ∧ correctFrame env f = some m := by
  rcases main_split env with hm | hm
  · rw [hm] at h
    simp at h
  · rw [hm, mainRun_committed env] at h
    exact runPhase2_mem _ _ _ _ h

/-- Phase 1 only reads: its trace holds no write and no keyframe insert. -/
lemma phase1Trace_no_commit (fs : List ℤ) :
    ∀ e ∈ phase1Trace fs, isCommit e = false := by
  intro e he
  unfold phase1Trace at he
  simp only [List.mem_flatten, List.mem_map] at he
  obtain ⟨l, ⟨f, _, rfl⟩, hel⟩ := he
  simp only [List.mem_cons, List.not_mem_nil, or_false] at hel
  rcases hel with rfl | rfl <;> rfl

/-- Every frame of the list is sampled in the phase-1 trace. -/
lemma phase1Trace_sample (fs : List ℤ) (f : ℤ) (hf : f ∈ fs) :
    Event.sample f ∈ phase1Trace fs := by
  unfold phase1Trace
  simp only [List.mem_flatten, List.mem_map]
  exact ⟨[Event.frameSet f, Event.sample f], ⟨f, hf, rfl⟩, by simp⟩

/-- Phase 2 only writes: its trace holds no sampling event. -/
lemma runPhase2_no_sample (env : Env) (fs : List ℤ) :
    ∀ e ∈ (runPhase2 env fs).1, isSample e = false := by
  induction fs with
  | nil => simp [runPhase2]
  | cons g gs ih =>
    intro e he
    rcases hg : correctFrame env g with _ | m'
    · rw [runPhase2_cons_none env g gs hg] at he
      simp only [List.mem_singleton] at he
      rw [he]
      rfl
    · rw [runPhase2_cons_some env g gs m' hg] at he
      simp only [List.mem_cons] at he
      rcases he with rfl | rfl | rfl | rfl | h
      · rfl
      · rfl
      · rfl
      · rfl
      · exact ih e h

/-- keyframesAt distributes over trace concatenation. -/
lemma keyframesAt_append (l1 l2 : List Event) (f : ℤ) :
    keyframesAt (l1 ++ l2) f = keyframesAt l1 f ++ keyframesAt l2 f := by
  unfold keyframesAt
  exact List.filterMap_append l1 l2 (keyAt f)

/-- Phase 1 inserts no keyframe at any frame. -/
lemma keyframesAt_phase1 (fs : List ℤ) (f : ℤ) :
    keyframesAt (phase1Trace fs) f = [] := by
  unfold keyframesAt
  rw [List.filterMap_eq_nil_iff]
  intro e he
  unfold phase1Trace at he
  simp only [List.mem_flatten, List.mem_map] at he
  obtain ⟨l, ⟨g, _, rfl⟩, hel⟩ := he
  simp only [List.mem_cons, List.not_mem_nil, or_false] at hel
  rcases hel with rfl | rfl <;> rfl

/-- Frames outside the phase-2 input list receive no keyframes. -/
lemma runPhase2_keys_not_mem (env : Env) (fs : List ℤ) (f : ℤ) (hf : f ∉ fs) :
    keyframesAt (runPhase2 env fs).1 f = [] := by
  induction fs with
  | nil => rfl
  | cons g gs ih =>
    have hfg : g ≠ f := fun h => hf (h ▸ List.mem_cons_self g gs)
    have hfgs : f ∉ gs := fun h => hf (List.mem_cons_of_mem _ h)
    rcases hg : correctFrame env g with _ | m'
    · rw [runPhase2_cons_none env g gs hg]
      rfl
    · rw [runPhase2_cons_some env g gs m' hg]
      unfold keyframesAt
      simp only [List.filterMap_cons, keyAt, if_neg hfg]
      exact ih hfgs

/-- A committed frame receives exactly the location keyframe followed by the
rotation keyframe of the subject's rotation mode, in that order. -/
lemma runPhase2_keys_of_mem (env : Env) (fs : List ℤ) (f : ℤ) (m : Aff)
    (hnd : fs.Nodup) (h : (f, m) ∈ (runPhase2 env fs).2.1) :
    keyframesAt (runPhase2 env fs).1 f
      = [Channel.location, rotChannel env.rotMode] := by
  induction fs with
  | nil => simp [runPhase2] at h
  | cons g gs ih =>
    obtain ⟨hgn, hnd'⟩ := List.nodup_cons.1 hnd
    rcases hg : correctFrame env g with _ | m'
    · rw [runPhase2_cons_none env g gs hg] at h
      simp at h
    · rw [runPhase2_cons_some env g gs m' hg] at h ⊢
      simp only [List.mem_cons, Prod.mk.injEq] at h
      rcases h with ⟨rfl, rfl⟩ | h
      · have htail : keyframesAt (runPhase2 env gs).1 f = [] :=
          runPhase2_keys_not_mem env gs f hgn
        unfold keyframesAt at htail ⊢
        simp [List.filterMap_cons, keyAt, htail]
      · have hfg : g ≠ f := by
          rintro rfl
          exact hgn (runPhase2_mem env gs g m h).1
        unfold keyframesAt
        simp only [List.filterMap_cons, keyAt, if_neg hfg]
        exact ih hnd' h

/-- Every keyframe channel phase 2 ever inserts is the location channel or
the rotation channel selected by the subject's rotation mode. -/
lemma runPhase2_keys_sub (env : Env) (fs : List ℤ) (g : ℤ) (ch : Channel)
    (h : ch ∈ keyframesAt (runPhase2 env fs).1 g) :
    ch = Channel.location ∨ ch = rotChannel env.rotMode := by
  induction fs with
  | nil => simp [runPhase2, keyframesAt] at h
  | cons g' gs ih =>
    rcases hg : correctFrame env g' with _ | m'
    · rw [runPhase2_cons_none env g' gs hg] at h
      simp [keyframesAt, keyAt] at h
    · rw [runPhase2_cons_some env g' gs m' hg] at h
      unfold keyframesAt at h
      by_cases hgg : g' = g
      · simp only [List.filterMap_cons, keyAt, if_pos hgg, List.mem_cons] at h
        rcases h with rfl | rfl | h
        · exact Or.inl rfl
        · exact Or.inr rfl
        · exact ih h
      · simp only [List.filterMap_cons, keyAt, if_neg hgg] at h
        exact ih h

/-- Core cancellation: if the sampled anchor matrix at a committed frame
equals the reference anchor pose, the committed local pose is exactly the
bone's own sampled armature-space pose: the correction is the identity. -/
lemma committed_static (env : Env) (f : ℤ) (m : Aff)
    (hm : (f, m) ∈ (main env).committed)
    (hanchor : (sampleAt env f).emptyW = refPose env) :
    m = env.boneMat f := by
  obtain ⟨hfr, hcf⟩ := main_committed_mem env f m hm
  obtain ⟨ie, ia, hie, hia, rfl⟩ := (correctFrame_some_iff env f _).1 hcf
  have hone : (refPose env).mul ie = Aff.one := by
    rw [← hanchor]
    exact Aff.mul_inverted_self _ _ hie
  have hmask : maskedAt env f ie = (sampleAt env f).boneW := by
    unfold maskedAt desiredAt
    rw [hone, aff_one_mul, maskedDesired_self]
  rw [hmask]
  exact Aff.inverted_cancel _ _ _ hia

/-- The x translation component after masking: the desired value when the
axis is corrected, the original sampled value when it is not. -/
lemma maskedDesired_tr_x (d bw : Aff) (fx fy fz : Bool) :
    (maskedDesired d bw fx fy fz).tr.x = if fx then d.tr.x else bw.tr.x := by
  unfold maskedDesired Vec3.add Vec3.sub
  cases fx <;>
    simp only [if_true, if_false, Bool.false_eq_true, qadd_eq, qsub_eq] <;> ring

/-- The y translation component after masking. -/
lemma maskedDesired_tr_y (d bw : Aff) (fx fy fz : Bool) :
    (maskedDesired d bw fx fy fz).tr.y = if fy then d.tr.y else bw.tr.y := by
  unfold maskedDesired Vec3.add Vec3.sub
  cases fy <;>
    simp only [if_true, if_false, Bool.false_eq_true, qadd_eq, qsub_eq] <;> ring

/-- The z translation component after masking. -/
lemma maskedDesired_tr_z (d bw : Aff) (fx fy fz : Bool) :
    (maskedDesired d bw fx fy fz).tr.z = if fz then d.tr.z else bw.tr.z := by
  unfold maskedDesired Vec3.add Vec3.sub
  cases fz <;>
    simp only [if_true, if_false, Bool.false_eq_true, qadd_eq, qsub_eq] <;> ring

/-!
Claim theorems.
-/

/-- C1: for every frame committed by a run, the corrected local pose written
to the subject equals inverse(parentWorld) composed with the desired world
matrix, where the desired world matrix is ReferenceAnchorPose times
inverse(anchorWorld) times subjectWorld with its translation replaced per
the axis mask; all four matrices are the ones captured for that frame during
the sampling phase (the embedding of phase 2 reads only the sample table,
exactly as the script reads only `samples[frame]`), and ReferenceAnchorPose
is the anchor world matrix sampled at the start frame. -/
theorem c1_committed_formula (env : Env) (f : ℤ) (m : Aff)
    (hm : (f, m) ∈ (main env).committed) :
    refPose env = (sampleAt env env.frame0).emptyW ∧
      ∃ ie ia, inverted (sampleAt env f).emptyW = some ie ∧
        inverted (sampleAt env f).armW = some ia ∧
        m = ia.mul (maskedDesired
          (((refPose env).mul ie).mul (sampleAt env f).boneW)
          (sampleAt env f).boneW env.fixX env.fixY env.fixZ) := by
  refine ⟨rfl, ?_⟩
  obtain ⟨_, hcf⟩ := main_committed_mem env f m hm
  obtain ⟨ie, ia, hie, hia, rfl⟩ := (correctFrame_some_iff env f _).1 hcf
  exact ⟨ie, ia, hie, hia, rfl⟩

/-- Witness for C1 at a concrete scene: frame 0 of the identity scene is
committed with the identity pose, and the formula holds there. -/
theorem c1_committed_formula_witness :
    ((0 : ℤ), Aff.one) ∈ (main envIdentity).committed ∧
      (refPose envIdentity = (sampleAt envIdentity envIdentity.frame0).emptyW ∧
        ∃ ie ia, inverted (sampleAt envIdentity 0).emptyW = some ie ∧
          inverted (sampleAt envIdentity 0).armW = some ia ∧
          Aff.one = ia.mul (maskedDesired
            (((refPose envIdentity).mul ie).mul (sampleAt envIdentity 0).boneW)
            (sampleAt envIdentity 0).boneW
            envIdentity.fixX envIdentity.fixY envIdentity.fixZ)) :=
  ⟨by decide, c1_committed_formula envIdentity 0 Aff.one (by decide)⟩

/-- C3: at every committed frame, on each world axis whose FIX flag is
False the post-mask desired translation component equals the original
sampled subject world translation component exactly, and on each axis whose
flag is True it equals the fully corrected (pre-mask desired) component —
never a blend. -/
theorem c3_axis_mask (env : Env) (f : ℤ) (m : Aff)
    (hm : (f, m) ∈ (main env).committed) :
    ∃ ie, inverted (sampleAt env f).emptyW = some ie ∧
      ((env.fixX = false → (maskedAt env f ie).tr.x = (sampleAt env f).boneW.tr.x) ∧
        (env.fixX = true → (maskedAt env f ie).tr.x = (desiredAt env f ie).tr.x)) ∧
      ((env.fixY = false → (maskedAt env f ie).tr.y = (sampleAt env f).boneW.tr.y) ∧
        (env.fixY = true → (maskedAt env f ie).tr.y = (desiredAt env f ie).tr.y)) ∧
      ((env.fixZ = false → (maskedAt env f ie).tr.z = (sampleAt env f).boneW.tr.z) ∧
        (env.fixZ = true → (maskedAt env f ie).tr.z = (desiredAt env f ie).tr.z)) := by
  obtain ⟨_, hcf⟩ := main_committed_mem env f m hm
  obtain ⟨ie, ia, hie, hia, _⟩ := (correctFrame_some_iff env f _).1 hcf
  refine ⟨ie, hie, ⟨?_, ?_⟩, ⟨?_, ?_⟩, ⟨?_, ?_⟩⟩ <;> intro hflag <;>
    unfold maskedAt <;>
    simp only [maskedDesired_tr_x, maskedDesired_tr_y, maskedDesired_tr_z, hflag,
      if_true, if_false, Bool.false_eq_true]

/-- Witness for C3 at a concrete scene with FIX_X = False and an anchor
that moves one unit along X by frame 1. -/
theorem c3_axis_mask_witness :
    ((1 : ℤ), Aff.one) ∈ (main envMaskX).committed ∧
      (∃ ie, inverted (sampleAt envMaskX 1).emptyW = some ie ∧
        ((envMaskX.fixX = false →
            (maskedAt envMaskX 1 ie).tr.x = (sampleAt envMaskX 1).boneW.tr.x) ∧
          (envMaskX.fixX = true →
            (maskedAt envMaskX 1 ie).tr.x = (desiredAt envMaskX 1 ie).tr.x)) ∧
        ((envMaskX.fixY = false →
            (maskedAt envMaskX 1 ie).tr.y = (sampleAt envMaskX 1).boneW.tr.y) ∧
          (envMaskX.fixY = true →
            (maskedAt envMaskX 1 ie).tr.y = (desiredAt envMaskX 1 ie).tr.y)) ∧
        ((envMaskX.fixZ = false →
            (maskedAt envMaskX 1 ie).tr.z = (sampleAt envMaskX 1).boneW.tr.z) ∧
          (envMaskX.fixZ = true →
            (maskedAt envMaskX 1 ie).tr.z = (desiredAt envMaskX 1 ie).tr.z))) :=
  ⟨by decide, c3_axis_mask envMaskX 1 Aff.one (by decide)⟩

/-- C6: at the start frame the corrected local pose committed to the
subject equals the subject's original armature-space pose exactly, for any
anchor and subject motion, because the anchor's displacement relative to
the reference pose is the identity there. -/
theorem c6_reference_fixed_point (env : Env) (m : Aff)
    (hm : (env.frame0, m) ∈ (main env).committed) :
    m = env.boneMat env.frame0 :=
  committed_static env env.frame0 m hm rfl

/-- Witness for C6 at a concrete scene. -/
theorem c6_reference_fixed_point_witness :
    ((0 : ℤ), Aff.one) ∈ (main envIdentity).committed ∧
      Aff.one = envIdentity.boneMat 0 :=
  ⟨by decide, c6_reference_fixed_point envIdentity Aff.one (by decide)⟩

/-- The linear block of an affine product is the product of linear blocks. -/
lemma Aff.mul_lin (a b : Aff) : (a.mul b).lin = a.lin.mul b.lin := rfl

/-- Masking never touches the linear (rotation/scale) block. -/
lemma maskedAt_lin (env : Env) (f : ℤ) (ie : Aff) :
    (maskedAt env f ie).lin
      = ((refPose env).lin.mul ie.lin).mul (sampleAt env f).boneW.lin := rfl

/-- The sampled bone world linear block factors through the parent. -/
lemma sampleAt_boneW_lin (env : Env) (f : ℤ) :
    (sampleAt env f).boneW.lin = (env.armW f).lin.mul (env.boneMat f).lin := rfl

/-- The sampled parent matrix is the armature world matrix at the frame. -/
lemma sampleAt_armW (env : Env) (f : ℤ) : (sampleAt env f).armW = env.armW f := rfl

/-- C2 counterexample: the claim that the committed rotation equals the
subject's original rotation for ANY anchor motion, including anchor
rotation, is false on the code. In the scene envRotAnchor the anchor
rotates 90 degrees about Z between the reference frame and frame 1 while
the subject's own pose stays the identity; the committed local pose at
frame 1 carries the inverse anchor rotation, not the original identity
rotation. -/
theorem c2_rotation_counterexample :
    ((1 : ℤ), Aff.mk (Mat3.mk 0 1 0 (-1) 0 0 0 0 1) Vec3.zero)
        ∈ (main envRotAnchor).committed ∧
      Mat3.mk 0 1 0 (-1) 0 0 0 0 1 ≠ (envRotAnchor.boneMat 1).lin := by
  decide

/-- C2 amended: the rotation (linear) block of the committed corrected
local pose equals the subject's original armature-space rotation at every
committed frame at which the anchor's linear block equals that of the
ReferenceAnchorPose — in particular for any purely translational anchor
motion. (With a rotating anchor the committed rotation differs, see the
counterexample.) -/
theorem c2_rotation_amended (env : Env) (f : ℤ) (m : Aff)
    (hm : (f, m) ∈ (main env).committed)
    (hlin : (sampleAt env f).emptyW.lin = (refPose env).lin) :
    m.lin = (env.boneMat f).lin := by
  obtain ⟨_, hcf⟩ := main_committed_mem env f m hm
  obtain ⟨ie, ia, hie, hia, rfl⟩ := (correctFrame_some_iff env f _).1 hcf
  obtain ⟨hde, rfl⟩ := inverted_some _ _ hie
  obtain ⟨hda, rfl⟩ := inverted_some _ _ hia
  rw [Aff.mul_lin, maskedAt_lin]
  dsimp only
  rw [← hlin, Mat3.mul_inv_self _ hde, mat3_one_mul, sampleAt_boneW_lin,
    sampleAt_armW, ← mat3_mul_assoc, Mat3.inv_mul_self (env.armW f).lin hda,
    mat3_one_mul]

/-- Witness for the amended C2 on a translating (non-rotating) anchor. -/
theorem c2_rotation_amended_witness :
    ((1 : ℤ), trAff (-1) 0 0) ∈ (main envTransAnchor).committed ∧
      (sampleAt envTransAnchor 1).emptyW.lin = (refPose envTransAnchor).lin ∧
      (trAff (-1) 0 0).lin = (envTransAnchor.boneMat 1).lin :=
  ⟨by decide, by decide,
    c2_rotation_amended envTransAnchor 1 (trAff (-1) 0 0) (by decide) (by decide)⟩

/-- C4 counterexample: with the anchor moving from (0,0,0) to (10,0,0) over
frames 1-10 and the subject's sampled world transform stationary at
(2,0,3) — the scenario exactly as the claim states it — the corrected world
translation at frame 10 is (-8,0,3), not (2,0,3): the correction subtracts
the anchor displacement from a subject that was not following the anchor. -/
theorem c4_scenarioB_counterexample :
    (main envScenarioB).committed.lookup (10 : ℤ)
        = some (Aff.mk Mat3.one (Vec3.mk (-8) 0 3)) ∧
      (correctedWorld envScenarioB 10 (Aff.mk Mat3.one (Vec3.mk (-8) 0 3))).tr
        ≠ Vec3.mk 2 0 3 := by
  decide

/-- C4 amended: in Scenario B the subject must slide WITH the anchor (its
world transform is the anchor translation composed with the constant offset
(2,0,3), i.e. it is stationary relative to the anchor, not in world space);
then with mask (true,true,true) the corrected world translation is (2,0,3)
at every one of the ten frames, and the run completes. -/
theorem c4_scenarioB_amended :
    (main envScenarioBFollow).outcome = Outcome.ok ∧
      ((main envScenarioBFollow).committed.map
          (fun p => (p.1, (correctedWorld envScenarioBFollow p.1 p.2).tr)))
        = (frameRange 1 10).map (fun f => (f, Vec3.mk 2 0 3)) := by
  decide

/-- A successful association-list lookup witnesses membership. -/
lemma lookup_mem_committed {l : List (ℤ × Aff)} {f : ℤ} {m : Aff}
    (h : l.lookup f = some m) : (f, m) ∈ l := by
  obtain ⟨l1, l2, rfl, -⟩ := List.lookup_eq_some_iff.1 h
  exact List.mem_append.2 (Or.inr (List.mem_cons_self _ _))

/-- Under a static anchor every committed pose equals the bone's own
sampled armature-space pose, so the scene a second run samples is the same
scene: re-running changes nothing. -/
lemma secondRunEnv_static (env : Env)
    (hstatic : ∀ g, env.emptyW g = env.emptyW env.frame0) :
    secondRunEnv env = env := by
  unfold secondRunEnv
  have hb : (fun f => (((main env).committed.lookup f).getD (env.boneMat f)))
      = env.boneMat := by
    funext f
    rcases h : (main env).committed.lookup f with _ | m
    · rfl
    · have hm := lookup_mem_committed h
      have hanchor : (sampleAt env f).emptyW = refPose env := by
        show env.emptyW f = refPose env
        rw [hstatic f]
        rfl
      simp [committed_static env f m hm hanchor]
  rw [hb]

/-- C5: if the anchor's world transform is the reference anchor pose at
every frame (static anchor), then (a) at every committed frame the
corrected world transform of the subject equals its original sampled world
transform — in particular on every masked-in axis — and (b) a second run of
the corrector on the scene left by the first run commits exactly the same
transforms. -/
theorem c5_static_anchor (env : Env)
    (hstatic : ∀ g, env.emptyW g = env.emptyW env.frame0) :
    (∀ f m, (f, m) ∈ (main env).committed →
        correctedWorld env f m = (sampleAt env f).boneW) ∧
      (main (secondRunEnv env)).committed = (main env).committed := by
  constructor
  · intro f m hm
    have hanchor : (sampleAt env f).emptyW = refPose env := by
      show env.emptyW f = refPose env
      rw [hstatic f]
      rfl
    have hlocal := committed_static env f m hm hanchor
    unfold correctedWorld
    rw [hlocal]
    rfl
  · rw [secondRunEnv_static env hstatic]

/-- Witness for C5 on the identity scene, whose anchor never moves. -/
theorem c5_static_anchor_witness :
    (∀ g, envIdentity.emptyW g = envIdentity.emptyW envIdentity.frame0) ∧
      ((∀ f m, (f, m) ∈ (main envIdentity).committed →
          correctedWorld envIdentity f m = (sampleAt envIdentity f).boneW) ∧
        (main (secondRunEnv envIdentity)).committed
          = (main envIdentity).committed) :=
  ⟨fun _ => rfl, c5_static_anchor envIdentity (fun _ => rfl)⟩

/-- C7 counterexample: a singular anchor matrix mid-run does abort the
corrector at that frame — but as an uncaught exception that reaches the
host (Outcome.exn models the ValueError escaping main(), which has no
try/except and no SingularTransformError class), not as a reported,
swallowed error exit like the configuration checks (Outcome.configError).
The claim that the failure is surfaced without being raised to the host
process is therefore false. -/
theorem c7_singular_counterexample :
    (main envSingular).outcome = Outcome.exn ∧
      (main envSingular).outcome ≠ Outcome.configError ∧
      (main envSingular).committed = [(0, Aff.one)] := by
  decide

/-- C7 amended: if the corrector phase reports a raising frame f, then the
run left main() through the uncaught-exception path, f lies in the frame
range and its sampled anchor or parent matrix is non-invertible, and every
committed frame is strictly earlier than f: the raising frame itself and
all later frames are not committed (frames already committed stay
committed; the abort does not roll them back). -/
theorem c7_singular_amended (env : Env) (f : ℤ)
    (h : (main env).failFrame = some f) :
    (main env).outcome = Outcome.exn ∧
      f ∈ frameRange env.frame0 env.frameEnd ∧
      (inverted (sampleAt env f).emptyW = none ∨
        inverted (sampleAt env f).armW = none) ∧
      (∀ g m, (g, m) ∈ (main env).committed → g < f) := by
  rcases main_split env with hm | hm
  · rw [hm] at h
    exact Option.noConfusion h
  · have herr : (runPhase2 env (frameRange env.frame0 env.frameEnd)).2.2 = some f := by
      rw [hm, mainRun_failFrame env] at h
      exact h
    obtain ⟨l1, l2, hsplit, hfail, hmap⟩ := runPhase2_err env _ f herr
    have houtcome : (main env).outcome = Outcome.exn := by
      rw [hm, mainRun_err env f herr]
    have hfr : f ∈ frameRange env.frame0 env.frameEnd := by
      rw [hsplit]
      exact List.mem_append.2 (Or.inr (List.mem_cons_self _ _))
    have hsing : inverted (sampleAt env f).emptyW = none ∨
        inverted (sampleAt env f).armW = none := by
      by_contra hc
      push_neg at hc
      obtain ⟨h1, h2⟩ := hc
      rcases Option.ne_none_iff_exists'.1 h1 with ⟨ie, hie⟩
      rcases Option.ne_none_iff_exists'.1 h2 with ⟨ia, hia⟩
      have hcf : correctFrame env f = some (ia.mul (maskedAt env f ie)) :=
        (correctFrame_some_iff env f _).2 ⟨ie, ia, hie, hia, rfl⟩
      rw [hfail] at hcf
      exact Option.noConfusion hcf
    refine ⟨houtcome, hfr, hsing, ?_⟩
    intro g m hgm
    rw [hm, mainRun_committed env] at hgm
    have hgl1 : g ∈ l1 := by
      have hmem : g ∈ ((runPhase2 env (frameRange env.frame0 env.frameEnd)).2.1).map
          Prod.fst := List.mem_map.2 ⟨(g, m), hgm, rfl⟩
      rwa [hmap] at hmem
    have hpw := frameRange_pairwise env.frame0 env.frameEnd
    rw [hsplit] at hpw
    exact (List.pairwise_append.1 hpw).2.2 g hgl1 f (List.mem_cons_self _ _)

/-- Witness for the amended C7 on the scene with a singular anchor at
frame 1. -/
theorem c7_singular_amended_witness :
    (main envSingular).failFrame = some 1 ∧
      ((main envSingular).outcome = Outcome.exn ∧
        1 ∈ frameRange envSingular.frame0 envSingular.frameEnd ∧
        (inverted (sampleAt envSingular 1).emptyW = none ∨
          inverted (sampleAt envSingular 1).armW = none) ∧
        (∀ g m, (g, m) ∈ (main envSingular).committed → g < 1)) :=
  ⟨by decide, c7_singular_amended envSingular 1 (by decide)⟩

/-- C8 counterexample: the claim that the clock is restored on EVERY exit
path is false. With a singular anchor at frame 1 the run dies through the
uncaught-exception path with the clock still at the raising frame 1, not at
its pre-invocation value 0. -/
theorem c8_clock_counterexample :
    envSingular.frame0 = 0 ∧ (main envSingular).finalFrame = 1 ∧
      (main envSingular).finalFrame ≠ envSingular.frame0 := by
  decide

/-- C8 amended: the clock is restored to its pre-invocation value on the
normal-completion path (the final `scene.frame_set(saved_frame)`) and is
trivially unchanged on the configuration-error exits, which return before
any clock write; but on the uncaught-exception path the clock remains at
the raising frame. -/
theorem c8_clock_amended (env : Env) :
    ((main env).outcome = Outcome.ok → (main env).finalFrame = env.frame0) ∧
      ((main env).outcome = Outcome.configError →
        (main env).finalFrame = env.frame0) ∧
      (∀ f, (main env).failFrame = some f → (main env).finalFrame = f) := by
  rcases main_split env with hm | hm
  · rw [hm]
    exact ⟨fun h => Outcome.noConfusion h, fun _ => rfl,
      fun f h => Option.noConfusion h⟩
  · rcases herr : (runPhase2 env (frameRange env.frame0 env.frameEnd)).2.2 with _ | g
    · rw [hm, mainRun_ok env herr]
      exact ⟨fun _ => rfl, fun h => Outcome.noConfusion h,
        fun f h => Option.noConfusion h⟩
    · rw [hm, mainRun_err env g herr]
      refine ⟨fun h => Outcome.noConfusion h, fun h => Outcome.noConfusion h, ?_⟩
      intro f h
      obtain rfl := Option.some.inj h
      rfl

/-- Witness for the amended C8 on a completing run. -/
theorem c8_clock_amended_witness :
    (main envIdentity).outcome = Outcome.ok ∧
      (main envIdentity).finalFrame = envIdentity.frame0 :=
  ⟨by decide, (c8_clock_amended envIdentity).1 (by decide)⟩

/-- C9: sampling and correction are two non-interleaved passes: the trace
of any run splits into a prefix holding no pose write and no keyframe
insert, and a suffix holding no sampling event; and whenever the
validation checks pass, the prefix already holds a sample of every frame
in [frameStart, frameEnd] — so nothing is written or keyframed until every
frame has been sampled, and no sample is taken after the first write. -/
theorem c9_two_phase (env : Env) :
    ∃ pre post, (main env).trace = pre ++ post ∧
      (∀ e ∈ pre, isCommit e = false) ∧
      (∀ e ∈ post, isSample e = false) ∧
      ((main env).outcome ≠ Outcome.configError →
        ∀ f ∈ frameRange env.frame0 env.frameEnd, Event.sample f ∈ pre) := by
  rcases main_split env with hm | hm
  · refine ⟨[], [], by rw [hm]; rfl, by simp, by simp, ?_⟩
    intro hne
    rw [hm] at hne
    exact absurd rfl hne
  · rcases herr : (runPhase2 env (frameRange env.frame0 env.frameEnd)).2.2 with _ | g
    · refine ⟨phase1Trace (frameRange env.frame0 env.frameEnd),
        (runPhase2 env (frameRange env.frame0 env.frameEnd)).1
          ++ [Event.frameSet env.frame0],
        ?_, phase1Trace_no_commit _, ?_, ?_⟩
      · rw [hm, mainRun_ok env herr]
        simp [List.append_assoc]
      · intro e he
        rcases List.mem_append.1 he with h | h
        · exact runPhase2_no_sample env _ e h
        · simp only [List.mem_singleton] at h
          rw [h]
          rfl
      · intro _ f hf
        exact phase1Trace_sample _ f hf
    · refine ⟨phase1Trace (frameRange env.frame0 env.frameEnd),
        (runPhase2 env (frameRange env.frame0 env.frameEnd)).1, ?_,
        phase1Trace_no_commit _, runPhase2_no_sample env _, ?_⟩
      · rw [hm, mainRun_err env g herr]
      · intro _ f hf
        exact phase1Trace_sample _ f hf

/-- Witness for C9 on a concrete scene. -/
theorem c9_two_phase_witness :
    ∃ pre post, (main envIdentity).trace = pre ++ post ∧
      (∀ e ∈ pre, isCommit e = false) ∧
      (∀ e ∈ post, isSample e = false) ∧
      ((main envIdentity).outcome ≠ Outcome.configError →
        ∀ f ∈ frameRange envIdentity.frame0 envIdentity.frameEnd,
          Event.sample f ∈ pre) :=
  c9_two_phase envIdentity

/-- A single clock-write event carries no keyframe. -/
lemma keyframesAt_frameSet (x : ℤ) (g : ℤ) :
    keyframesAt [Event.frameSet x] g = [] := rfl

/-- C10: every committed frame receives exactly two keyframes, the location
channel and then the single rotation channel selected by the subject's
rotation mode (which is never the location channel); no scale keyframe is
ever inserted anywhere in the run; and yet the committed local pose matrix
can carry a non-unit scale inherited from the anchor-subtraction product,
as the concrete scaled-anchor scene shows. -/
theorem c10_keyframe_channels (env : Env) (f : ℤ) (m : Aff)
    (hm : (f, m) ∈ (main env).committed) :
    keyframesAt (main env).trace f = [Channel.location, rotChannel env.rotMode] ∧
      rotChannel env.rotMode ≠ Channel.location ∧
      (∀ g ch, ch ∈ keyframesAt (main env).trace g → ch ≠ Channel.scale) ∧
      (∃ m2, ((1 : ℤ), m2) ∈ (main envScaleAnchor).committed ∧
        Mat3.det m2.lin ≠ 1 ∧ Mat3.det m2.lin ≠ -1) := by
  rcases main_split env with hmm | hmm
  · rw [hmm] at hm
    simp at hm
  · have hcommitted :
        (f, m) ∈ (runPhase2 env (frameRange env.frame0 env.frameEnd)).2.1 := by
      rw [hmm, mainRun_committed env] at hm
      exact hm
    have htrace_keys : ∀ g, keyframesAt (main env).trace g
        = keyframesAt (runPhase2 env (frameRange env.frame0 env.frameEnd)).1 g := by
      intro g
      rcases herr : (runPhase2 env (frameRange env.frame0 env.frameEnd)).2.2 with _ | x
      · rw [hmm, mainRun_ok env herr]
        rw [keyframesAt_append, keyframesAt_append, keyframesAt_phase1,
          keyframesAt_frameSet, List.nil_append, List.append_nil]
      · rw [hmm, mainRun_err env x herr, keyframesAt_append, keyframesAt_phase1,
          List.nil_append]
    refine ⟨?_, ?_, ?_, ?_⟩
    · rw [htrace_keys f]
      exact runPhase2_keys_of_mem env _ f m (frameRange_nodup _ _) hcommitted
    · cases hr : env.rotMode <;> decide
    · intro g ch hch
      rw [htrace_keys g] at hch
      rcases runPhase2_keys_sub env _ g ch hch with rfl | rfl
      · decide
      · cases hr : env.rotMode <;> decide
    · exact ⟨Aff.mk (Mat3.mk (mkRat 1 2) 0 0 0 (mkRat 1 2) 0 0 0 (mkRat 1 2)) Vec3.zero,
        by decide, by decide, by decide⟩

/-- Witness for C10 on a concrete scene: frame 0 of the identity scene. -/
theorem c10_keyframe_channels_witness :
    ((0 : ℤ), Aff.one) ∈ (main envIdentity).committed ∧
      (keyframesAt (main envIdentity).trace 0
          = [Channel.location, rotChannel envIdentity.rotMode] ∧
        rotChannel envIdentity.rotMode ≠ Channel.location ∧
        (∀ g ch, ch ∈ keyframesAt (main envIdentity).trace g →
          ch ≠ Channel.scale) ∧
        (∃ m2, ((1 : ℤ), m2) ∈ (main envScaleAnchor).committed ∧
          Mat3.det m2.lin ≠ 1 ∧ Mat3.det m2.lin ≠ -1)) :=
  ⟨by decide, c10_keyframe_channels envIdentity 0 Aff.one (by decide)⟩

end FixBoneSliding
